import Mathlib

/-!
Verification of the Semantic Scholar MCP server (`src/server.py`).

The development shallowly embeds the module in Lean:

* Timestamps and durations (Python `time.time()` floats) are modelled as
  rationals `ℚ`.
* The module-level mutable/config state (`RATE_LIMIT_SECONDS`, `API_KEY`,
  `BASE_URL`, `_last_request_time`) is an explicit `ModuleState` record.
* `_wait_for_rate_limit` reads the wall clock twice: once before the
  optional sleep and once after it.  The embedding therefore takes the two
  clock samples `now1` and `now2` as parameters and returns the updated
  state together with the duration passed to `asyncio.sleep`
  (`none` when the sleep statement is not executed).
* The five tool wrappers are embedded with the HTTP layer as an oracle
  `net : Request → Response`; `response.raise_for_status()` becomes an
  `Except` value that is an error exactly on non-2xx status codes.
* The asyncio lock discipline of `_wait_for_rate_limit` is modelled as a
  labelled transition system (`Label`, `stepRel`, `Reachable`) with a FIFO
  wait queue, mirroring `asyncio.Lock`.
-/

namespace SemScholar

/-- Module-level state of `server.py`: the three configuration bindings and
the one mutable variable `_last_request_time` (initialised to the sentinel
`0.0`). -/
structure ModuleState where
  RATE_LIMIT_SECONDS : ℚ
  API_KEY : Option String
  BASE_URL : String
  last_request_time : ℚ
deriving DecidableEq

/-- The module constants as initialised at import time
(`RATE_LIMIT_SECONDS = 1.0`, `_last_request_time = 0.0`), with the optional
API key left as a parameter (it comes from the environment). -/
def initialState (apiKey : Option String) : ModuleState :=
  { RATE_LIMIT_SECONDS := 1
    API_KEY := apiKey
    BASE_URL := "https://api.semanticscholar.org/graph/v1"
    last_request_time := 0 }

/-- Embedding of `_wait_for_rate_limit` (src/server.py lines 45-57).
`now1` is the value of the first `time.time()` call, `now2` the value of the
second one (taken after the optional sleep).  Returns the updated module
state and the duration handed to `asyncio.sleep` (`none` when the branch is
not taken and no sleep happens). -/
def wait_for_rate_limit (s : ModuleState) (now1 now2 : ℚ) :
    ModuleState × Option ℚ :=
  let current_time := now1
  let time_since_last := current_time - s.last_request_time
  if time_since_last < s.RATE_LIMIT_SECONDS then
    ({ s with last_request_time := now2 },
      some (s.RATE_LIMIT_SECONDS - time_since_last))
  else
    ({ s with last_request_time := now2 }, none)

/-- The sleep duration actually requested: `0` when no sleep happens. -/
def sleepDur (o : Option ℚ) : ℚ := o.getD 0

/-- A pair of clock samples `(now1, now2)` for one `_wait_for_rate_limit`
call is valid when the second sample is at least the first plus the
requested sleep: `asyncio.sleep w` suspends for at least `w` and the wall
clock is monotone. -/
def validSample (s : ModuleState) (p : ℚ × ℚ) : Bool :=
  decide (p.1 + sleepDur (wait_for_rate_limit s p.1 p.2).2 ≤ p.2)

/-- A whole run of back-to-back `_wait_for_rate_limit` calls with the given
clock samples is valid when every call's samples are valid for the state it
runs in. -/
def validRun (s : ModuleState) : List (ℚ × ℚ) → Bool
  | [] => true
  | p :: rest =>
      validSample s p && validRun (wait_for_rate_limit s p.1 p.2).1 rest

/-- The recorded grant times (`_last_request_time` after each call) of a run
of `_wait_for_rate_limit` calls. -/
def grantTimes (s : ModuleState) : List (ℚ × ℚ) → List ℚ
  | [] => []
  | p :: rest =>
      let s' := (wait_for_rate_limit s p.1 p.2).1
      s'.last_request_time :: grantTimes s' rest

/-- Consecutive elements of the list are at least `interval` apart. -/
def spacedBy (interval : ℚ) : List ℚ → Bool
  | t1 :: t2 :: rest => decide (t1 + interval ≤ t2) && spacedBy interval (t2 :: rest)
  | _ => true

/-- `_wait_for_rate_limit` leaves the configuration fields untouched:
only `_last_request_time` is assigned. -/
theorem wait_preserves_config (s : ModuleState) (now1 now2 : ℚ) :
    ((wait_for_rate_limit s now1 now2).1).RATE_LIMIT_SECONDS = s.RATE_LIMIT_SECONDS ∧
    ((wait_for_rate_limit s now1 now2).1).API_KEY = s.API_KEY ∧
    ((wait_for_rate_limit s now1 now2).1).BASE_URL = s.BASE_URL := by
  simp only [wait_for_rate_limit]
  split <;> exact ⟨rfl, rfl, rfl⟩

/-- The new `_last_request_time` is the post-sleep clock sample. -/
theorem wait_sets_last (s : ModuleState) (now1 now2 : ℚ) :
    ((wait_for_rate_limit s now1 now2).1).last_request_time = now2 := by
  simp only [wait_for_rate_limit]
  split <;> rfl

/-- Single-step spacing: a valid call moves `_last_request_time` forward by
at least the interval. -/
theorem wait_step_spacing (s : ModuleState) (now1 now2 : ℚ)
    (h : validSample s (now1, now2) = true) :
    s.last_request_time + s.RATE_LIMIT_SECONDS ≤
      ((wait_for_rate_limit s now1 now2).1).last_request_time := by
  rw [wait_sets_last]
  unfold validSample at h
  simp only [wait_for_rate_limit] at h
  split at h
  · simp only [sleepDur, Option.getD_some, decide_eq_true_eq] at h
    linarith
  · rename_i hge
    simp only [sleepDur, Option.getD_none, decide_eq_true_eq] at h
    push_neg at hge
    linarith

/-- Dropping the head of a spaced list keeps it spaced. -/
theorem spacedBy_tail (interval : ℚ) (x : ℚ) (l : List ℚ)
    (h : spacedBy interval (x :: l) = true) : spacedBy interval l = true := by
  cases l with
  | nil => rfl
  | cons y ys =>
      simp only [spacedBy, Bool.and_eq_true] at h
      exact h.2

/-- A valid run keeps all grant times, together with the starting
`_last_request_time`, spaced by the configured interval. -/
theorem grantTimes_spaced_from (s : ModuleState) (samples : List (ℚ × ℚ))
    (h : validRun s samples = true) :
    spacedBy s.RATE_LIMIT_SECONDS (s.last_request_time :: grantTimes s samples) = true := by
  induction samples generalizing s with
  | nil => rfl
  | cons p rest ih =>
      simp only [validRun, Bool.and_eq_true] at h
      obtain ⟨hp, hrest⟩ := h
      have hstep := wait_step_spacing s p.1 p.2 hp
      have hcfg := (wait_preserves_config s p.1 p.2).1
      have htail := ih ((wait_for_rate_limit s p.1 p.2).1) hrest
      rw [hcfg] at htail
      simp only [grantTimes, spacedBy, Bool.and_eq_true, decide_eq_true_eq]
      exact ⟨hstep, htail⟩

/-- C1: for every valid run of `_wait_for_rate_limit` calls (each call's
post-sleep clock sample at least its pre-sleep sample plus the requested
sleep), any two consecutively granted permits — consecutive recorded
`_last_request_time` values — are spaced at least `RATE_LIMIT_SECONDS`
apart. -/
theorem rate_limit_spacing_invariant (s : ModuleState) (samples : List (ℚ × ℚ))
    (h : validRun s samples = true) :
    spacedBy s.RATE_LIMIT_SECONDS (grantTimes s samples) = true :=
  spacedBy_tail _ _ _ (grantTimes_spaced_from s samples h)

/-- Witness for C1: a concrete three-call run from the freshly initialised
module state, with its permit spacing checked by evaluation. -/
theorem rate_limit_spacing_invariant_witness :
    validRun (initialState none) [((0 : ℚ), 1), (3/2, 5/2), (4, 9/2)] = true ∧
    spacedBy (initialState none).RATE_LIMIT_SECONDS
      (grantTimes (initialState none) [((0 : ℚ), 1), (3/2, 5/2), (4, 9/2)]) = true :=
  ⟨by norm_num [validRun, validSample, sleepDur, wait_for_rate_limit, initialState],
   rate_limit_spacing_invariant (initialState none)
     [((0 : ℚ), 1), (3/2, 5/2), (4, 9/2)]
     (by norm_num [validRun, validSample, sleepDur, wait_for_rate_limit, initialState])⟩

/-- C2: inside the critical section, `_wait_for_rate_limit` computes
`elapsed = now − lastReleaseTime`; if `elapsed < interval` it requests a
sleep of exactly `interval − elapsed`; and it sets `_last_request_time` to
the clock value re-sampled after any wait (`now2`), not to the pre-wait
sample. -/
theorem wait_sleeps_exact_and_resamples (s : ModuleState) (now1 now2 : ℚ) :
    (now1 - s.last_request_time < s.RATE_LIMIT_SECONDS →
      (wait_for_rate_limit s now1 now2).2 =
        some (s.RATE_LIMIT_SECONDS - (now1 - s.last_request_time))) ∧
    ((wait_for_rate_limit s now1 now2).1).last_request_time = now2 := by
  refine ⟨fun h => ?_, wait_sets_last s now1 now2⟩
  simp only [wait_for_rate_limit, if_pos h]

/-- Witness for C2: a fresh gate, pre-wait clock `0`, post-wait clock `1`:
the requested sleep is exactly `1 − 0 = 1` and the recorded time is the
re-sampled `1`. -/
theorem wait_sleeps_exact_and_resamples_witness :
    (wait_for_rate_limit (initialState none) 0 1).2 = some 1 ∧
    ((wait_for_rate_limit (initialState none) 0 1).1).last_request_time = 1 := by
  constructor
  · have h := (wait_sleeps_exact_and_resamples (initialState none) 0 1).1
      (by norm_num [initialState])
    norm_num [initialState] at h
    exact h
  · exact (wait_sleeps_exact_and_resamples (initialState none) 0 1).2

/-- C3: an `acquire()` call on a freshly initialised gate
(`_last_request_time = 0`, the sentinel for "never", with the wall clock
past the interval as any epoch-based clock is), or one made at least
`interval` after the previous permit, executes no sleep at all. -/
theorem acquire_no_spurious_delay (s : ModuleState) (now1 now2 : ℚ) :
    (s.last_request_time = 0 → s.RATE_LIMIT_SECONDS ≤ now1 →
      (wait_for_rate_limit s now1 now2).2 = none) ∧
    (s.RATE_LIMIT_SECONDS ≤ now1 - s.last_request_time →
      (wait_for_rate_limit s now1 now2).2 = none) := by
  constructor
  · intro h0 hge
    simp only [wait_for_rate_limit, h0, sub_zero, if_neg (not_lt.mpr hge)]
  · intro hge
    simp only [wait_for_rate_limit, if_neg (not_lt.mpr hge)]

/-- Witness for C3: a fresh-gate call at clock `2` sleeps not at all, and
neither does a call `3/2` after the permit it records. -/
theorem acquire_no_spurious_delay_witness :
    (wait_for_rate_limit (initialState none) 2 2).2 = none ∧
    (wait_for_rate_limit ((wait_for_rate_limit (initialState none) 2 2).1)
      (7/2) (7/2)).2 = none :=
  ⟨(acquire_no_spurious_delay (initialState none) 2 2).1
     (by norm_num [initialState]) (by norm_num [initialState]),
   (acquire_no_spurious_delay ((wait_for_rate_limit (initialState none) 2 2).1)
     (7/2) (7/2)).2 (by norm_num [initialState, wait_for_rate_limit])⟩

/-- C4: `_wait_for_rate_limit` has no failure mode: on every input it
returns normally, and its only possible behaviour besides returning is to
request a (strictly positive) sleep delaying the caller. -/
theorem acquire_cannot_fail (s : ModuleState) (now1 now2 : ℚ) :
    (wait_for_rate_limit s now1 now2).2 = none ∨
    ∃ w : ℚ, (wait_for_rate_limit s now1 now2).2 = some w ∧ 0 < w := by
  simp only [wait_for_rate_limit]
  split
  · rename_i hlt
    exact Or.inr ⟨_, rfl, by linarith⟩
  · exact Or.inl rfl

/-- C7: `_wait_for_rate_limit` mutates only `_last_request_time`; the
interval, the API key and the base URL are left unchanged, and the update
of `_last_request_time` is its only effect on the module state. -/
theorem acquire_frame (s : ModuleState) (now1 now2 : ℚ) :
    ((wait_for_rate_limit s now1 now2).1).RATE_LIMIT_SECONDS = s.RATE_LIMIT_SECONDS ∧
    ((wait_for_rate_limit s now1 now2).1).API_KEY = s.API_KEY ∧
    ((wait_for_rate_limit s now1 now2).1).BASE_URL = s.BASE_URL ∧
    ((wait_for_rate_limit s now1 now2).1).last_request_time = now2 :=
  ⟨(wait_preserves_config s now1 now2).1,
   (wait_preserves_config s now1 now2).2.1,
   (wait_preserves_config s now1 now2).2.2,
   wait_sets_last s now1 now2⟩

/-! HTTP layer and the five tool operations. -/

/-- A query-parameter value: Python passes strings and ints. -/
inductive Param where
  | str (s : String)
  | int (n : ℤ)
deriving DecidableEq

/-- An outbound `httpx` GET request as built by the tools. -/
structure Request where
  url : String
  params : List (String × Param)
  headers : List (String × String)
  timeout : ℚ
deriving DecidableEq

/-- An HTTP response: status code and (already parsed) JSON body. -/
structure Response where
  status_code : ℕ
  json_body : String
deriving DecidableEq

/-- `httpx` success statuses: the 2xx range. -/
def is_success (code : ℕ) : Bool := 200 ≤ code && code < 300

/-- Embedding of `response.raise_for_status()`: an error carrying the status
code exactly when the status is not a success (2xx). -/
def raise_for_status (r : Response) : Except ℕ Response :=
  if is_success r.status_code then Except.ok r else Except.error r.status_code

/-- Embedding of `_get_headers` (src/server.py lines 37-42): the
`x-api-key` header is attached exactly when `API_KEY` is truthy (present
and non-empty). -/
def get_headers (apiKey : Option String) : List (String × String) :=
  match apiKey with
  | some k => if k ≠ "" then [("x-api-key", k)] else []
  | none => []

/-- Observable calls a tool makes: the rate-limit acquisition and the
outbound GET. -/
inductive Event where
  | acquireGate
  | httpGet (req : Request)
deriving DecidableEq

/-- Number of rate-limit acquisitions in an event trace. -/
def countAcquires (es : List Event) : ℕ :=
  es.countP fun e => match e with | Event.acquireGate => true | _ => false

/-- Number of outbound GETs in an event trace. -/
def countGets (es : List Event) : ℕ :=
  es.countP fun e => match e with | Event.httpGet _ => true | _ => false

/-- What one tool invocation did: its event trace, the module state after
the rate-limit update, the request it issued, and the returned body or the
propagated status error. -/
structure ToolOutcome where
  events : List Event
  state : ModuleState
  request : Request
  result : Except ℕ String

/-- Shared tail of every tool: issue the GET through the network oracle,
`raise_for_status`, and return `response.json()`. -/
def runTool (s' : ModuleState) (req : Request) (net : Request → Response) :
    ToolOutcome :=
  let resp := net req
  { events := [Event.acquireGate, Event.httpGet req]
    state := s'
    request := req
    result :=
      match raise_for_status resp with
      | Except.ok r => Except.ok r.json_body
      | Except.error c => Except.error c }

/-- Embedding of the tool `search_papers` (src/server.py lines 60-94). -/
def search_papers (s : ModuleState) (now1 now2 : ℚ) (net : Request → Response)
    (query : String) (limit : ℤ) (fields : String) : ToolOutcome :=
  let s' := (wait_for_rate_limit s now1 now2).1
  runTool s'
    { url := s.BASE_URL ++ "/paper/search"
      params := [("query", Param.str query), ("limit", Param.int (min limit 100)),
                 ("fields", Param.str fields)]
      headers := get_headers s.API_KEY
      timeout := 30 } net

/-- Embedding of the tool `get_paper_details` (src/server.py lines 97-125). -/
def get_paper_details (s : ModuleState) (now1 now2 : ℚ) (net : Request → Response)
    (paper_id : String) (fields : String) : ToolOutcome :=
  let s' := (wait_for_rate_limit s now1 now2).1
  runTool s'
    { url := s.BASE_URL ++ "/paper/" ++ paper_id
      params := [("fields", Param.str fields)]
      headers := get_headers s.API_KEY
      timeout := 30 } net

/-- Embedding of the tool `get_paper_citations` (src/server.py lines 128-161). -/
def get_paper_citations (s : ModuleState) (now1 now2 : ℚ) (net : Request → Response)
    (paper_id : String) (limit : ℤ) (fields : String) : ToolOutcome :=
  let s' := (wait_for_rate_limit s now1 now2).1
  runTool s'
    { url := s.BASE_URL ++ "/paper/" ++ paper_id ++ "/citations"
      params := [("limit", Param.int (min limit 1000)), ("fields", Param.str fields)]
      headers := get_headers s.API_KEY
      timeout := 30 } net

/-- Embedding of the tool `get_paper_references` (src/server.py lines 164-197). -/
def get_paper_references (s : ModuleState) (now1 now2 : ℚ) (net : Request → Response)
    (paper_id : String) (limit : ℤ) (fields : String) : ToolOutcome :=
  let s' := (wait_for_rate_limit s now1 now2).1
  runTool s'
    { url := s.BASE_URL ++ "/paper/" ++ paper_id ++ "/references"
      params := [("limit", Param.int (min limit 1000)), ("fields", Param.str fields)]
      headers := get_headers s.API_KEY
      timeout := 30 } net

/-- Embedding of the tool `get_author_papers` (src/server.py lines 200-233). -/
def get_author_papers (s : ModuleState) (now1 now2 : ℚ) (net : Request → Response)
    (author_id : String) (limit : ℤ) (fields : String) : ToolOutcome :=
  let s' := (wait_for_rate_limit s now1 now2).1
  runTool s'
    { url := s.BASE_URL ++ "/author/" ++ author_id ++ "/papers"
      params := [("limit", Param.int (min limit 1000)), ("fields", Param.str fields)]
      headers := get_headers s.API_KEY
      timeout := 30 } net

/-- A tool outcome follows the acquire-then-GET-then-status-check contract:
exactly one rate-limit acquisition, then exactly one outbound GET, and the
parsed body on 2xx or the status code as an error otherwise. -/
def ToolContract (net : Request → Response) (t : ToolOutcome) : Prop :=
  countAcquires t.events = 1 ∧ countGets t.events = 1 ∧
  t.events = [Event.acquireGate, Event.httpGet t.request] ∧
  t.result = (if is_success (net t.request).status_code
              then Except.ok (net t.request).json_body
              else Except.error (net t.request).status_code)

/-- `runTool` always satisfies the tool contract. -/
theorem runTool_contract (s' : ModuleState) (req : Request)
    (net : Request → Response) : ToolContract net (runTool s' req net) := by
  refine ⟨rfl, rfl, rfl, ?_⟩
  by_cases h : is_success (net req).status_code = true
  · simp [runTool, raise_for_status, h]
  · simp [runTool, raise_for_status, h]

/-- C5: each of the five tool operations acquires the rate-limit gate
exactly once, then performs exactly one outbound HTTP GET, and returns the
parsed JSON body when the response status is 2xx or propagates a failure
carrying the non-success status otherwise. -/
theorem tools_acquire_once_one_get_status (s : ModuleState) (now1 now2 : ℚ)
    (net : Request → Response) (query paper_id author_id fields : String)
    (limit : ℤ) :
    ToolContract net (search_papers s now1 now2 net query limit fields) ∧
    ToolContract net (get_paper_details s now1 now2 net paper_id fields) ∧
    ToolContract net (get_paper_citations s now1 now2 net paper_id limit fields) ∧
    ToolContract net (get_paper_references s now1 now2 net paper_id limit fields) ∧
    ToolContract net (get_author_papers s now1 now2 net author_id limit fields) :=
  ⟨runTool_contract _ _ _, runTool_contract _ _ _, runTool_contract _ _ _,
   runTool_contract _ _ _, runTool_contract _ _ _⟩

/-- C6: `_get_headers` returns the `x-api-key` header mapped to the
configured API key exactly when a (non-empty) key is configured, and an
empty header dict when none is. -/
theorem get_headers_attaches_credential (k : String) :
    (k ≠ "" → get_headers (some k) = [("x-api-key", k)]) ∧
    get_headers (some "") = [] ∧
    get_headers none = [] := by
  refine ⟨fun h => ?_, rfl, rfl⟩
  simp [get_headers, h]

/-- Witness for C6: the header is attached for a concrete key and absent
without one. -/
theorem get_headers_attaches_credential_witness :
    get_headers (some "test_api_key_123") = [("x-api-key", "test_api_key_123")] ∧
    get_headers none = [] :=
  ⟨(get_headers_attaches_credential "test_api_key_123").1 (by decide),
   (get_headers_attaches_credential "test_api_key_123").2.2⟩

/-- The `limit` query parameter a request carries, when any. -/
def limitParam (req : Request) : Option Param := req.params.lookup "limit"

/-- C10: the forwarded `limit` query parameter is clamped from above to the
per-operation cap — `min limit 100` for `search_papers`, `min limit 1000`
for citations, references and author papers — and values at or below the
cap (zero and negative ones included) pass through unchanged. -/
theorem tools_clamp_limit (s : ModuleState) (now1 now2 : ℚ)
    (net : Request → Response) (query paper_id author_id fields : String)
    (limit : ℤ) :
    limitParam (search_papers s now1 now2 net query limit fields).request
      = some (Param.int (min limit 100)) ∧
    limitParam (get_paper_citations s now1 now2 net paper_id limit fields).request
      = some (Param.int (min limit 1000)) ∧
    limitParam (get_paper_references s now1 now2 net paper_id limit fields).request
      = some (Param.int (min limit 1000)) ∧
    limitParam (get_author_papers s now1 now2 net author_id limit fields).request
      = some (Param.int (min limit 1000)) ∧
    (limit ≤ 100 → min limit 100 = limit) ∧
    (limit ≤ 1000 → min limit 1000 = limit) := by
  refine ⟨rfl, rfl, rfl, rfl, fun h => min_eq_left h, fun h => min_eq_left h⟩

/-- Witness for C10: a concrete call with `limit = 5` forwards `5`
unchanged on every operation. -/
theorem tools_clamp_limit_witness :
    limitParam (search_papers (initialState none) 0 1
      (fun _ => Response.mk 200 "ok") "q" 5 "f").request = some (Param.int 5) ∧
    min (5 : ℤ) 100 = 5 ∧ min (5 : ℤ) 1000 = 5 := by
  obtain ⟨h1, h2, h3, h4, h5, h6⟩ := tools_clamp_limit (initialState none) 0 1
    (fun _ => Response.mk 200 "ok") "q" "p" "a" "f" 5
  refine ⟨?_, h5 (by decide), h6 (by decide)⟩
  rw [h1]
  norm_num

/-! Concurrency model of the `asyncio.Lock` discipline.

`_wait_for_rate_limit` executes `async with _rate_limit_lock:` around a
read-compute-sleep-update sequence.  We model the concurrent behaviour as a
labelled transition system over task program counters.  `asyncio.Lock`
keeps a FIFO queue of waiters and wakes them in order, so an arriving task
either takes the free lock at once or appends itself to the queue; a task
leaving the critical section (by finishing or by being cancelled during the
sleep) hands the lock to the queue's front.  Cancellation during
`asyncio.sleep` raises `CancelledError`, whose propagation leaves the
`async with` block and thereby releases the lock without executing the
`_last_request_time` update. -/

/-- Program counter of one task calling `_wait_for_rate_limit`. -/
inductive PC where
  | notStarted
  | waiting
  | running
  | sleeping
  | cancelledOut
  | done
deriving DecidableEq

/-- Is the task inside the lock-protected critical section (either running
its body or suspended in the `asyncio.sleep`)? -/
def inCS : PC → Bool
  | PC.running => true
  | PC.sleeping => true
  | _ => false

/-- Global state of the concurrent system: task program counters, the lock
owner, the FIFO waiter queue, the order in which tasks entered the critical
section, the order in which tasks requested the lock, and the shared
`_last_request_time`. -/
structure Sys where
  pc : ℕ → PC
  owner : Option ℕ
  queue : List ℕ
  csOrder : List ℕ
  arrived : List ℕ
  last : ℚ

/-- Transition labels: which task does what (and, for the release, the
re-sampled clock value written to `_last_request_time`). -/
inductive Label where
  | acqFree (i : ℕ)
  | acqWait (i : ℕ)
  | startSleep (i : ℕ)
  | finishSleep (i : ℕ)
  | release (i : ℕ) (t : ℚ)
  | cancel (i : ℕ)

/-- Leaving the critical section: the leaving task gets `newPC`, the shared
timestamp becomes `newLast`, and the lock is handed to the front waiter (or
freed when none waits). -/
def handOff (s : Sys) (i : ℕ) (newPC : PC) (newLast : ℚ) : Sys :=
  match s.queue with
  | [] =>
      { s with pc := Function.update s.pc i newPC, owner := none, last := newLast }
  | j :: rest =>
      { s with
        pc := Function.update (Function.update s.pc i newPC) j PC.running
        owner := some j
        queue := rest
        csOrder := s.csOrder ++ [j]
        last := newLast }

/-- The transition relation.  `acqFree`/`acqWait` are the two outcomes of
`await lock.acquire()`; `startSleep`/`finishSleep` bracket the
`asyncio.sleep`; `release` is the timestamp update followed by the normal
exit of `async with`; `cancel` is a `CancelledError` delivered during the
sleep, which unwinds out of the `async with`, releasing the lock without
touching the timestamp. -/
def stepRel : Label → Sys → Sys → Prop
  | Label.acqFree i, s, s' =>
      s.pc i = PC.notStarted ∧ s.owner = none ∧ s.queue = [] ∧
      s' = { s with
             pc := Function.update s.pc i PC.running
             owner := some i
             csOrder := s.csOrder ++ [i]
             arrived := s.arrived ++ [i] }
  | Label.acqWait i, s, s' =>
      s.pc i = PC.notStarted ∧ s.owner ≠ none ∧
      s' = { s with
             pc := Function.update s.pc i PC.waiting
             queue := s.queue ++ [i]
             arrived := s.arrived ++ [i] }
  | Label.startSleep i, s, s' =>
      s.pc i = PC.running ∧ s.owner = some i ∧
      s' = { s with pc := Function.update s.pc i PC.sleeping }
  | Label.finishSleep i, s, s' =>
      s.pc i = PC.sleeping ∧ s.owner = some i ∧
      s' = { s with pc := Function.update s.pc i PC.running }
  | Label.release i t, s, s' =>
      s.pc i = PC.running ∧ s.owner = some i ∧ s' = handOff s i PC.done t
  | Label.cancel i, s, s' =>
      s.pc i = PC.sleeping ∧ s.owner = some i ∧
      s' = handOff s i PC.cancelledOut s.last

/-- The initial system: no task has started, the lock is free, the shared
timestamp holds the `0.0` sentinel. -/
def initSys : Sys :=
  { pc := fun _ => PC.notStarted
    owner := none
    queue := []
    csOrder := []
    arrived := []
    last := 0 }

/-- States reachable from the initial system by transitions. -/
inductive Reachable : Sys → Prop where
  | init : Reachable initSys
  | step (l : Label) (s s' : Sys) : Reachable s → stepRel l s s' → Reachable s'

/-- The inductive invariant of the lock discipline. -/
def Inv (s : Sys) : Prop :=
  (∀ i, inCS (s.pc i) = true → s.owner = some i) ∧
  (∀ i, s.owner = some i → inCS (s.pc i) = true) ∧
  (∀ j ∈ s.queue, s.pc j = PC.waiting) ∧
  s.queue.Nodup ∧
  (s.owner = none → s.queue = []) ∧
  s.arrived = s.csOrder ++ s.queue

/-- The invariant holds initially. -/
theorem inv_init : Inv initSys := by
  unfold Inv initSys
  refine ⟨?_, ?_, ?_, ?_, ?_, ?_⟩ <;> simp [inCS]

/-- Replacing the owner's program counter by another in-critical-section
value preserves the invariant. -/
theorem inv_update_incs (s : Sys) (i : ℕ) (p : PC)
    (hInv : Inv s) (hown : s.owner = some i) (hp : inCS p = true) :
    Inv { s with pc := Function.update s.pc i p } := by
  obtain ⟨I1, I2, I3, I4, I5, I6⟩ := hInv
  have hics : inCS (s.pc i) = true := I2 i hown
  unfold Inv
  dsimp only
  refine ⟨?_, ?_, ?_, I4, I5, I6⟩
  · intro k hk
    by_cases hki : k = i
    · subst hki; exact hown
    · rw [Function.update_noteq hki] at hk
      exact I1 k hk
  · intro k hk
    rw [hown] at hk
    obtain rfl := Option.some.inj hk
    rw [Function.update_same]
    exact hp
  · intro j hj
    have hjw := I3 j hj
    have hji : j ≠ i := by
      intro e
      rw [e] at hjw
      rw [hjw] at hics
      simp [inCS] at hics
    rw [Function.update_noteq hji]
    exact hjw

/-- Leaving the critical section through `handOff` preserves the invariant,
provided the leaving task owns the lock and its new program counter is
outside the critical section. -/
theorem handOff_inv (s : Sys) (i : ℕ) (newPC : PC) (newLast : ℚ)
    (hInv : Inv s) (hown : s.owner = some i) (hnot : inCS newPC = false) :
    Inv (handOff s i newPC newLast) := by
  obtain ⟨I1, I2, I3, I4, I5, I6⟩ := hInv
  unfold handOff
  rcases hq : s.queue with _ | ⟨j, rest⟩
  · unfold Inv
    dsimp only
    rw [hq] at I6
    refine ⟨?_, ?_, ?_, List.nodup_nil, fun _ => rfl, I6⟩
    · intro k hk
      exfalso
      by_cases hki : k = i
      · subst hki
        rw [Function.update_same, hnot] at hk
        exact Bool.false_ne_true hk
      · rw [Function.update_noteq hki] at hk
        have h2 := I1 k hk
        rw [hown] at h2
        exact hki (Option.some.inj h2).symm
    · intro k hk
      exact Option.noConfusion hk
    · intro m hm
      exact absurd hm (List.not_mem_nil m)
  · have hjq : j ∈ s.queue := by rw [hq]; exact List.mem_cons_self j rest
    have hjw : s.pc j = PC.waiting := I3 j hjq
    have hji : j ≠ i := by
      intro e
      have hics := I2 i hown
      rw [← e, hjw] at hics
      simp [inCS] at hics
    have hnodup : (j :: rest).Nodup := by rw [← hq]; exact I4
    unfold Inv
    dsimp only
    refine ⟨?_, ?_, ?_, ?_, ?_, ?_⟩
    · intro k hk
      by_cases hkj : k = j
      · subst hkj; rfl
      · exfalso
        rw [Function.update_noteq hkj] at hk
        by_cases hki : k = i
        · subst hki
          rw [Function.update_same, hnot] at hk
          exact Bool.false_ne_true hk
        · rw [Function.update_noteq hki] at hk
          have h2 := I1 k hk
          rw [hown] at h2
          exact hki (Option.some.inj h2).symm
    · intro k hk
      obtain rfl := Option.some.inj hk
      rw [Function.update_same]
      rfl
    · intro m hm
      have hmq : m ∈ s.queue := by rw [hq]; exact List.mem_cons_of_mem j hm
      have hmw := I3 m hmq
      have hmi : m ≠ i := by
        intro e
        have hics := I2 i hown
        rw [← e, hmw] at hics
        simp [inCS] at hics
      have hmj : m ≠ j := by
        intro e
        exact (List.nodup_cons.mp hnodup).1 (e ▸ hm)
      rw [Function.update_noteq hmj, Function.update_noteq hmi]
      exact hmw
    · exact (List.nodup_cons.mp hnodup).2
    · intro h
      exact Option.noConfusion h
    · rw [I6, hq]
      simp

/-- Every transition preserves the invariant. -/
theorem inv_step (l : Label) (s s' : Sys) (hInv : Inv s) (h : stepRel l s s') :
    Inv s' := by
  cases l with
  | acqFree i =>
      obtain ⟨I1, I2, I3, I4, I5, I6⟩ := hInv
      obtain ⟨hpc, hown, hq, rfl⟩ := h
      unfold Inv
      dsimp only
      refine ⟨?_, ?_, ?_, I4, ?_, ?_⟩
      · intro k hk
        by_cases hki : k = i
        · subst hki; rfl
        · exfalso
          rw [Function.update_noteq hki] at hk
          have h2 := I1 k hk
          rw [hown] at h2
          exact Option.noConfusion h2
      · intro k hk
        obtain rfl := Option.some.inj hk
        rw [Function.update_same]
        rfl
      · intro m hm
        rw [hq] at hm
        exact absurd hm (List.not_mem_nil m)
      · intro h2
        exact Option.noConfusion h2
      · rw [I6, hq]
        simp
  | acqWait i =>
      obtain ⟨I1, I2, I3, I4, I5, I6⟩ := hInv
      obtain ⟨hpc, hown, rfl⟩ := h
      have hni : i ∉ s.queue := by
        intro hmem
        have h2 := I3 i hmem
        rw [hpc] at h2
        exact PC.noConfusion h2
      unfold Inv
      dsimp only
      refine ⟨?_, ?_, ?_, ?_, ?_, ?_⟩
      · intro k hk
        by_cases hki : k = i
        · subst hki
          rw [Function.update_same] at hk
          exact absurd hk (by simp [inCS])
        · rw [Function.update_noteq hki] at hk
          exact I1 k hk
      · intro k hk
        have h2 := I2 k hk
        have hki : k ≠ i := by
          intro e
          rw [e, hpc] at h2
          simp [inCS] at h2
        rw [Function.update_noteq hki]
        exact h2
      · intro m hm
        rcases List.mem_append.mp hm with hm | hm
        · have hmi : m ≠ i := fun e => hni (e ▸ hm)
          rw [Function.update_noteq hmi]
          exact I3 m hm
        · obtain rfl := List.mem_singleton.mp hm
          rw [Function.update_same]
      · simp only [List.nodup_append, List.nodup_cons, List.nodup_nil]
        exact ⟨I4, ⟨by simp, trivial⟩, by simpa [List.disjoint_singleton] using hni⟩
      · intro h2
        exact absurd h2 hown
      · rw [I6]
        simp
  | startSleep i =>
      obtain ⟨hpc, hown, rfl⟩ := h
      exact inv_update_incs s i PC.sleeping hInv hown rfl
  | finishSleep i =>
      obtain ⟨hpc, hown, rfl⟩ := h
      exact inv_update_incs s i PC.running hInv hown rfl
  | release i t =>
      obtain ⟨hpc, hown, rfl⟩ := h
      exact handOff_inv s i PC.done t hInv hown rfl
  | cancel i =>
      obtain ⟨hpc, hown, rfl⟩ := h
      exact handOff_inv s i PC.cancelledOut s.last hInv hown rfl

/-- Every reachable state satisfies the invariant. -/
theorem reachable_inv (s : Sys) (h : Reachable s) : Inv s := by
  induction h with
  | init => exact inv_init
  | step l s s' _ hstep ih => exact inv_step l s s' ih hstep

/-- C8: in every reachable state of the concurrent model, at most one task
is inside the lock-protected critical section — even while suspended in the
sleep — and the order in which tasks entered the critical section is the
FIFO order in which they requested the lock: the arrival order is exactly
the critical-section entry order followed by the still-waiting queue. -/
theorem lock_mutual_exclusion_fifo (s : Sys) (h : Reachable s) :
    (∀ i j, inCS (s.pc i) = true → inCS (s.pc j) = true → i = j) ∧
    s.arrived = s.csOrder ++ s.queue := by
  obtain ⟨I1, I2, I3, I4, I5, I6⟩ := reachable_inv s h
  refine ⟨fun i j hi hj => ?_, I6⟩
  have h1 := I1 i hi
  have h2 := I1 j hj
  rw [h1] at h2
  exact Option.some.inj h2

/-- State after task 0 takes the free lock in the initial system. -/
def sysA : Sys :=
  { initSys with
    pc := Function.update initSys.pc 0 PC.running
    owner := some 0
    csOrder := initSys.csOrder ++ [0]
    arrived := initSys.arrived ++ [0] }

/-- State after task 1 then queues up behind task 0. -/
def sysB : Sys :=
  { sysA with
    pc := Function.update sysA.pc 1 PC.waiting
    queue := sysA.queue ++ [1]
    arrived := sysA.arrived ++ [1] }

/-- State after task 0 then starts its rate-limit sleep (lock still held). -/
def sysC : Sys :=
  { sysB with pc := Function.update sysB.pc 0 PC.sleeping }

theorem reachable_sysA : Reachable sysA :=
  Reachable.step (Label.acqFree 0) initSys sysA Reachable.init ⟨rfl, rfl, rfl, rfl⟩

theorem reachable_sysB : Reachable sysB :=
  Reachable.step (Label.acqWait 1) sysA sysB reachable_sysA
    ⟨rfl, fun h => Option.noConfusion h, rfl⟩

theorem reachable_sysC : Reachable sysC :=
  Reachable.step (Label.startSleep 0) sysB sysC reachable_sysB ⟨rfl, rfl, rfl⟩

/-- Witness for C8: the concrete reachable state with task 0 asleep in the
critical section and task 1 queued satisfies mutual exclusion and the FIFO
ordering. -/
theorem lock_mutual_exclusion_fifo_witness :
    (∀ i j, inCS (sysC.pc i) = true → inCS (sysC.pc j) = true → i = j) ∧
    sysC.arrived = sysC.csOrder ++ sysC.queue :=
  lock_mutual_exclusion_fifo sysC reachable_sysC

/-- C9: if a task is cancelled while suspended in the sleep inside
`acquire()`, the lock is released as the call unwinds — the cancelled task
never holds it afterwards; the lock is freed, or handed to the front waiter
which enters the critical section — and no permit is recorded: the shared
`_last_request_time` is unchanged because the update step is never
reached. -/
theorem cancel_releases_lock_no_permit (s s' : Sys) (i : ℕ)
    (hr : Reachable s) (hstep : stepRel (Label.cancel i) s s') :
    s'.owner ≠ some i ∧ s'.last = s.last ∧
    (s.queue = [] → s'.owner = none) ∧
    (∀ j rest, s.queue = j :: rest → s'.owner = some j ∧ s'.pc j = PC.running) := by
  obtain ⟨I1, I2, I3, I4, I5, I6⟩ := reachable_inv s hr
  obtain ⟨hpc, hown, rfl⟩ := hstep
  unfold handOff
  rcases hq : s.queue with _ | ⟨j, rest⟩
  · dsimp only
    refine ⟨fun h2 => Option.noConfusion h2, rfl, fun _ => rfl, ?_⟩
    intro j rest hcontra
    exact List.noConfusion hcontra
  · have hjq : j ∈ s.queue := by rw [hq]; exact List.mem_cons_self j rest
    have hjw : s.pc j = PC.waiting := I3 j hjq
    have hji : j ≠ i := by
      intro e
      rw [e, hpc] at hjw
      exact PC.noConfusion hjw
    dsimp only
    refine ⟨?_, rfl, ?_, ?_⟩
    · intro h2
      exact hji (Option.some.inj h2)
    · intro h2
      exact List.noConfusion h2
    · intro m mrest hm
      injection hm with hjm hrm
      subst hjm
      exact ⟨rfl, by rw [Function.update_same]⟩

/-- The result of cancelling task 0 while it sleeps in `sysC`. -/
def sysD : Sys := handOff sysC 0 PC.cancelledOut sysC.last

/-- Witness for C9: cancelling the sleeping task 0 in the concrete state
`sysC` hands the lock to the queued task 1 and leaves the shared timestamp
untouched. -/
theorem cancel_releases_lock_no_permit_witness :
    sysD.owner ≠ some 0 ∧ sysD.last = sysC.last ∧
    (sysC.queue = [] → sysD.owner = none) ∧
    (∀ j rest, sysC.queue = j :: rest → sysD.owner = some j ∧ sysD.pc j = PC.running) :=
  cancel_releases_lock_no_permit sysC sysD 0 reachable_sysC ⟨rfl, rfl, rfl⟩

end SemScholar
